import Mathlib

/-!
Verification of the subdomain-hunter enumeration engine
(`src/subdomain_hunter.py`), shallowly embedded in Lean 4.

Strings are modelled as `List Char`.  Network and file-system effects are
modelled as oracle parameters: the HTTP bodies returned by the passive
sources, the DNS answers, the AXFR results and the wordlist contents are
inputs to the pure functions below, exactly as the Python code consumes
them.  All machine-level deviations of the source from the spec (the
`re.findall` capturing-group behaviour, the `urlparse` double-scheme
behaviour, the `rstrip` semantics) are embedded exactly as the source
behaves, not as the spec describes.
-/

namespace SubHunter

/-- Convert a Lean string literal to the `List Char` representation used
throughout this development. -/
def str (s : String) : List Char := s.toList

/-! ### Python string primitives (ASCII fragment, as exercised by the tool) -/

/-- Whitespace recognised by Python `str.strip()` (ASCII fragment). -/
def pyIsSpaceCh (c : Char) : Bool :=
  c == ' ' || c == '\t' || c == '\n' || c == '\r' || c == '\x0b' || c == '\x0c'

/-- Python `str.strip()`: drop whitespace from both ends. -/
def pyStrip (l : List Char) : List Char :=
  ((l.dropWhile pyIsSpaceCh).reverse.dropWhile pyIsSpaceCh).reverse

/-- Python `str.lower()` on one character (ASCII fragment: `A`-`Z` map to
`a`-`z`, everything else is unchanged). -/
def pyLowerCh (c : Char) : Char :=
  if 65 ≤ c.toNat && c.toNat ≤ 90 then Char.ofNat (c.toNat + 32) else c

/-- Python `str.lower()` (ASCII fragment). -/
def pyLower (l : List Char) : List Char := l.map pyLowerCh

/-- Python `s.endswith(d)`: `d` is a suffix of `s`. -/
def pyEndsWith (d s : List Char) : Bool :=
  s.drop (s.length - d.length) == d

/-- Python `s.startswith(d)` for a one-character `d`. -/
def pyStartsWithCh (c : Char) (s : List Char) : Bool :=
  match s with
  | [] => false
  | x :: _ => x == c

/-- Python `s.rstrip('.')`: remove every trailing `'.'`. -/
def pyRstripDot (l : List Char) : List Char :=
  (l.reverse.dropWhile (· == '.')).reverse

/-- Python `s.split(sep)` for a one-character separator keeps empty pieces,
like `List.splitOn`. -/
def pySplitNl (l : List Char) : List (List Char) := l.splitOn '\n'

/-! ### The `re.findall` engine for the web-search pattern

`web_search` applies the pattern
`([a-zA-Z0-9][-a-zA-Z0-9]*\.)+` + `re.escape(self.domain)`
to the response body with `re.findall`.  Because the pattern has a
capturing group, Python's `findall` returns the *group* capture of each
match — the text of the **last** repetition of the group — not the whole
match.  The engine below reproduces that behaviour for this pattern.

Within one repetition the character classes `[a-zA-Z0-9]`/`[-a-zA-Z0-9]`
are disjoint from `'.'`, so each repetition matches deterministically
(maximal label run followed by a literal dot); only the repetition count
of the `+` backtracks, greedily from the largest count down. -/

/-- The class `[a-zA-Z0-9]`. -/
def isAlnumCh (c : Char) : Bool := c.isAlpha || c.isDigit

/-- The class `[-a-zA-Z0-9]`. -/
def isLabelCh (c : Char) : Bool := isAlnumCh c || c == '-'

/-- Match one repetition `[a-zA-Z0-9][-a-zA-Z0-9]*\.` at the head of `s`;
return the matched text.  The match, when it exists, is unique. -/
def matchSeg (s : List Char) : Option (List Char) :=
  match s with
  | [] => none
  | c :: rest =>
    if isAlnumCh c then
      match rest.drop (rest.takeWhile isLabelCh).length with
      | '.' :: _ => some (c :: (rest.takeWhile isLabelCh ++ ['.']))
      | _ => none
    else none

/-- All maximal chains of consecutive repetitions at the head of `s`:
entry `k` (0-based) is the text of repetition `k+1` paired with the total
length of the first `k+1` repetitions.  The fuel argument only bounds the
recursion; `fuel = s.length` never truncates, since each repetition is at
least two characters long. -/
def segChainF : Nat → List Char → List (List Char × Nat)
  | 0, _ => []
  | fuel + 1, s =>
    match matchSeg s with
    | none => []
    | some seg =>
      (seg, seg.length) ::
        (segChainF fuel (s.drop seg.length)).map (fun p => (p.1, p.2 + seg.length))

/-- Repetition chains starting at the head of `s`. -/
def segChain (s : List Char) : List (List Char × Nat) := segChainF s.length s

/-- Try the whole pattern `(seg)+ domain` at the head of `s`, greedily:
largest repetition count first.  On success return the length of the full
match and the capture of group 1 (the last repetition). -/
def tryMatch (domain s : List Char) : Option (Nat × List Char) :=
  (segChain s).reverse.findSome? (fun p =>
    if (s.drop p.2).take domain.length == domain then
      some (p.2 + domain.length, p.1)
    else none)

/-- Scan `s` left to right; at each position emit the group capture of the
leftmost-greedy match, then continue after the match, as `re.findall`
does.  `fuel = s.length` never truncates, since every step advances. -/
def findallF (domain : List Char) : Nat → List Char → List (List Char)
  | 0, _ => []
  | fuel + 1, s =>
    match s with
    | [] => []
    | _ :: rest =>
      match tryMatch domain s with
      | some (len, grp) => grp :: findallF domain fuel (s.drop len)
      | none => findallF domain fuel rest

/-- The model of `re.findall(pattern, body)` in `web_search`. -/
def findall (domain body : List Char) : List (List Char) :=
  findallF domain body.length body

/-- A capture is a nonempty dotless core followed by one dot: the form of
every group capture the engine above can return. -/
def SegShape (m : List Char) : Prop :=
  ∃ core, m = core ++ ['.'] ∧ core ≠ [] ∧ '.' ∉ core

/-! ### Domain cleaning and validation (`main`, lines 392-399)

The code runs `urlparse("http://" + args.domain).netloc or args.domain`.
Since the parsed string always starts with the literal `"http://"`, the
scheme is always `http` and the netloc is the prefix of `args.domain` up
to the first `'/'`, `'?'` or `'#'`; when that prefix is empty the raw
argument is used instead.  Then `.lower().strip()` is applied, and the
result is matched against `^[a-z0-9]+([\-\.]{1}[a-z0-9]+)*\.[a-z]{2,}$`. -/

/-- The netloc of `urlparse("http://" + raw)`. -/
def netlocOf (raw : List Char) : List Char :=
  raw.takeWhile (fun c => !(c == '/' || c == '?' || c == '#'))

/-- The cleaned domain computed by `main`:
`(urlparse("http://" + raw).netloc or raw).lower().strip()`. -/
def cleanDomain (raw : List Char) : List Char :=
  pyStrip (pyLower (if (netlocOf raw).isEmpty then raw else netlocOf raw))

/-- The class `[a-z0-9]` (the input has already been lowercased). -/
def isLowerAlnumCh (c : Char) : Bool :=
  ('a' ≤ c && c ≤ 'z') || ('0' ≤ c && c ≤ '9')

/-- The class `[a-z]`. -/
def isLowerAlphaCh (c : Char) : Bool := 'a' ≤ c && c ≤ 'z'

/-- Tokenise the remainder of the domain after the leading `[a-z0-9]+`
run as a sequence of `[\-\.][a-z0-9]+` groups; `none` when the remainder
is not exactly such a sequence.  Each group consumes at least two
characters, so `fuel = s.length` never truncates. -/
def parseRepsF : Nat → List Char → Option (List (Char × List Char))
  | 0, s => if s.isEmpty then some [] else none
  | fuel + 1, s =>
    match s with
    | [] => some []
    | c :: rest =>
      if c == '.' || c == '-' then
        if (rest.takeWhile isLowerAlnumCh).isEmpty then none
        else
          (parseRepsF fuel (rest.drop (rest.takeWhile isLowerAlnumCh).length)).map
            (fun l => (c, rest.takeWhile isLowerAlnumCh) :: l)
      else none

/-- The regex `^[a-z0-9]+([\-\.]{1}[a-z0-9]+)*\.[a-z]{2,}$` as a decision
procedure.  The character classes of the leading run, the group bodies
and the separators are pairwise disjoint, so the split into a leading
`[a-z0-9]+` run and `[\-\.][a-z0-9]+` groups is deterministic; the only
backtracking the regex can perform is to give the last group back to the
trailing `\.[a-z]{2,}$`, which succeeds exactly when the last group is a
dot followed by at least two letters. -/
def validDomain (s : List Char) : Bool :=
  if (s.takeWhile isLowerAlnumCh).isEmpty then false
  else
    match parseRepsF s.length (s.drop (s.takeWhile isLowerAlnumCh).length) with
    | none => false
    | some reps =>
      match reps.getLast? with
      | some (sep, lab) => sep == '.' && decide (2 ≤ lab.length) && lab.all isLowerAlphaCh
      | none => false

/-! ### DNS resolution (`resolve_dns`, lines 211-217) -/

/-- Outcomes of `dns.resolver.resolve(hostname, 'A')` other than a
successful answer: the exceptions the bare `except:` swallows. -/
inductive DnsErr : Type
  | nxdomain
  | timeout
  | servfail
  | other
deriving DecidableEq

/-- `resolve_dns`: `True` when `resolver.resolve(hostname, 'A')` returns
an answer, `False` when it raises anything; the exception never escapes. -/
def resolve_dns (oracle : List Char → Except DnsErr Unit) (hostname : List Char) : Bool :=
  match oracle hostname with
  | .ok _ => true
  | .error _ => false

/-! ### Certificate-transparency phase (`search_ct_logs`, lines 139-163) -/

/-- The name-set state threaded through one phase: the set of names the
phase has newly found, paired with the shared `self.subdomains` set. -/
abbrev NameState := Finset (List Char) × Finset (List Char)

/-- Process one line of a `name_value` field: strip, lower, keep it when
it ends with the domain, has no wildcard and is not already known. -/
def ctStep (domain : List Char) (st : NameState) (line : List Char) : NameState :=
  if pyEndsWith domain (pyLower (pyStrip line)) &&
      !((pyLower (pyStrip line)).contains '*') then
    if pyLower (pyStrip line) ∉ st.2 then
      (insert (pyLower (pyStrip line)) st.1, insert (pyLower (pyStrip line)) st.2)
    else st
  else st

/-- `search_ct_logs`: `resp` is `None` when the crt.sh request fails or
returns a non-200 status; otherwise it is the list of the records'
`name_value` fields.  Each field is split on newlines and each line is
processed by `ctStep`. -/
def search_ct_logs (domain : List Char) (resp : Option (List (List Char)))
    (subdomains : Finset (List Char)) : NameState :=
  match resp with
  | none => (∅, subdomains)
  | some entries =>
    entries.foldl (fun st nv => (pySplitNl nv).foldl (ctStep domain) st) (∅, subdomains)

/-- Anything the certificate-transparency phase adds to its found set is
the lower-cased strip of some response line, checked to end with the
domain and to be wildcard-free. -/
def CtProp (domain s : List Char) : Prop :=
  pyEndsWith domain s = true ∧ s.contains '*' = false ∧ pyLower s = s

/-! ### Web-source phase (`web_search`, lines 219-253) -/

/-- Process one `re.findall` capture: lower it, strip trailing dots, keep
it when it still ends with the domain and is not already known. -/
def webStep (domain : List Char) (st : NameState) (m : List Char) : NameState :=
  if pyEndsWith domain (pyRstripDot (pyLower m)) &&
      pyRstripDot (pyLower m) ∉ st.2 then
    (insert (pyRstripDot (pyLower m)) st.1, insert (pyRstripDot (pyLower m)) st.2)
  else st

/-- Process one source: `resp` is `None` when the request fails or the
status is not 200; otherwise it is the response body, and every capture
returned by `re.findall` is processed by `webStep`. -/
def webSource (domain : List Char) (st : NameState) (resp : Option (List Char)) :
    NameState :=
  match resp with
  | none => st
  | some body => (findall domain body).foldl (webStep domain) st

/-- `web_search`: the two configured sources (HackerTarget, BufferOver)
are processed in order against the shared name set. -/
def web_search (domain : List Char) (resp1 resp2 : Option (List Char))
    (subdomains : Finset (List Char)) : NameState :=
  webSource domain (webSource domain (∅, subdomains) resp1) resp2

/-- Anything the zone-transfer phase adds to its found set is the
lower-cased `node + "." + domain` of some transferred node. -/
def ZoneProp (domain s : List Char) : Prop := ∃ n, s = pyLower (n ++ '.' :: domain)

/-! ### Zone-transfer phase (`zone_transfer`, lines 255-282) -/

/-- Node names added from one successfully transferred zone:
`f"{name}.{domain}".lower()` for every node, all inserted. -/
def zoneNodes (domain : List Char) (st : NameState) (nodes : List (List Char)) :
    NameState :=
  nodes.foldl (fun st n =>
    (insert (pyLower (n ++ '.' :: domain)) st.1,
     insert (pyLower (n ++ '.' :: domain)) st.2)) st

/-- `zone_transfer`: `nsResp` is `None` when the NS lookup (or anything
before the loop) raises — the outer `except: pass` — and otherwise is the
list of the `str(ns)` values.  For each nameserver the trailing dots are
stripped and `xfr` is consulted: `none` models any per-nameserver failure
(the inner `except: continue`), `some nodes` a successful transfer. -/
def zone_transfer (domain : List Char) (nsResp : Option (List (List Char)))
    (xfr : List Char → Option (List (List Char)))
    (subdomains : Finset (List Char)) : NameState :=
  match nsResp with
  | none => (∅, subdomains)
  | some nss =>
    nss.foldl (fun st ns =>
      match xfr (pyRstripDot ns) with
      | none => st
      | some nodes => zoneNodes domain st nodes) (∅, subdomains)

/-! ### Brute-force phase (`dns_bruteforce`, lines 165-209) -/

/-- Errors raised by `open`/read of the wordlist.  Only
`FileNotFoundError` is caught by the code; everything else propagates. -/
inductive FileErr : Type
  | fileNotFound
  | permissionDenied
  | otherErr
deriving DecidableEq

/-- The wordlist entries the code keeps:
`[line.strip() for line in f if line.strip() and not line.startswith('#')]`
(note: the `#` test is on the unstripped line). -/
def wordsOf (lines : List (List Char)) : List (List Char) :=
  (lines.filter (fun l => !(pyStrip l).isEmpty && !pyStartsWithCh '#' l)).map pyStrip

/-- The set of candidates `word + "." + domain` that resolve, over a list
of wordlist entries.  `found` in `dns_bruteforce` equals this set: the
code inserts every resolving candidate, present in the name set already
or not. -/
def bfCandSet (domain : List Char) (resolve : List Char → Bool) :
    List (List Char) → Finset (List Char)
  | [] => ∅
  | w :: ws =>
    if resolve (w ++ '.' :: domain) then
      insert (w ++ '.' :: domain) (bfCandSet domain resolve ws)
    else bfCandSet domain resolve ws

/-- `dns_bruteforce`: reading the wordlist either yields its lines, or
raises.  `FileNotFoundError` is caught and the phase returns the empty
`found` set; any other error propagates out of the phase.  On success
every wordlist entry is resolved (the thread pool only reorders the
checks; both `found` and `self.subdomains` receive exactly the resolving
candidates, so the result is order-independent). -/
def dns_bruteforce (domain : List Char) (dns : List Char → Except DnsErr Unit)
    (wordlist : Except FileErr (List (List Char)))
    (subdomains : Finset (List Char)) : Except FileErr NameState :=
  match wordlist with
  | .error .fileNotFound => .ok (∅, subdomains)
  | .error e => .error e
  | .ok lines =>
    .ok ((wordsOf lines).foldl (fun st w =>
      if resolve_dns dns (w ++ '.' :: domain) then
        (insert (w ++ '.' :: domain) st.1, insert (w ++ '.' :: domain) st.2)
      else st) (∅, subdomains))

/-! ### Orchestrator (`run_all`, lines 80-137) -/

/-- The enable flags and wordlist path passed to `run_all`.  A `None`
path, and likewise an empty path string, is falsy in
`if enable_brute and wordlist_path`. -/
structure ScanConfig : Type where
  enable_ct : Bool
  enable_web : Bool
  enable_zone : Bool
  enable_brute : Bool
  wordlist_path : Option (List Char)
deriving DecidableEq

/-- The external world one scan observes: the crt.sh records, the two
web-source bodies, the NS answer, the per-nameserver AXFR outcomes, the
DNS resolver and the wordlist file contents per path. -/
structure Oracles : Type where
  ctResp : Option (List (List Char))
  webResp1 : Option (List Char)
  webResp2 : Option (List Char)
  nsResp : Option (List (List Char))
  xfr : List Char → Option (List (List Char))
  dns : List Char → Except DnsErr Unit
  readWordlist : List Char → Except FileErr (List (List Char))

/-- The per-phase counters of `results['statistics']`.  The dict is a
`defaultdict(int)`, so a key never written reads as `0`; phases that are
disabled or skipped therefore contribute `0`. -/
structure ScanStats : Type where
  ct_logs : Nat
  web_search : Nat
  zone_transfer : Nat
  brute_force : Nat
  total_unique : Nat
deriving DecidableEq

/-- The `results` dict assembled by `run_all` (`scan_time` is wall-clock
time, outside this embedding). -/
structure ScanResult : Type where
  domain : List Char
  subdomains : List (List Char)
  stats : ScanStats
deriving DecidableEq

/-- Whether the brute-force phase runs: `enable_brute and wordlist_path`. -/
def bruteRuns (cfg : ScanConfig) : Bool :=
  cfg.enable_brute &&
    (match cfg.wordlist_path with
     | none => false
     | some p => !p.isEmpty)

/-- Phase 1 state after `search_ct_logs` (the shared set starts empty). -/
def ctPhase (domain : List Char) (o : Oracles) (cfg : ScanConfig) : NameState :=
  if cfg.enable_ct then search_ct_logs domain o.ctResp ∅ else (∅, ∅)

/-- Phase 2 state after `web_search`. -/
def webPhase (domain : List Char) (o : Oracles) (cfg : ScanConfig) : NameState :=
  if cfg.enable_web then
    web_search domain o.webResp1 o.webResp2 (ctPhase domain o cfg).2
  else (∅, (ctPhase domain o cfg).2)

/-- Phase 3 state after `zone_transfer`. -/
def zonePhase (domain : List Char) (o : Oracles) (cfg : ScanConfig) : NameState :=
  if cfg.enable_zone then
    zone_transfer domain o.nsResp o.xfr (webPhase domain o cfg).2
  else (∅, (webPhase domain o cfg).2)

/-- Phase 4 state after `dns_bruteforce`; a propagating wordlist error
escapes `run_all` (there is no handler between the phase and `main`). -/
def brutePhase (domain : List Char) (o : Oracles) (cfg : ScanConfig) :
    Except FileErr NameState :=
  if bruteRuns cfg then
    dns_bruteforce domain o.dns
      (o.readWordlist (cfg.wordlist_path.getD [])) (zonePhase domain o cfg).2
  else .ok (∅, (zonePhase domain o cfg).2)

/-- Python `sorted(list(s))` for a set of names: the unique ascending
enumeration of the `Finset`, in the lexicographic order on strings.
Computed with insertion sort, which is permutation-invariant on a
multiset, so the lift is well defined. -/
def pySorted (s : Finset (List Char)) : List (List Char) :=
  Quotient.liftOn s.val (fun l => List.insertionSort (· ≤ ·) l)
    (fun l₁ l₂ h =>
      List.eq_of_perm_of_sorted
        ((List.perm_insertionSort _ l₁).trans (h.trans (List.perm_insertionSort _ l₂).symm))
        (List.sorted_insertionSort _ l₁) (List.sorted_insertionSort _ l₂))

/-- `run_all`: the four phases in order, then the compiled report:
`sorted(list(self.subdomains))` and the statistics. -/
def run_all (domain : List Char) (o : Oracles) (cfg : ScanConfig) :
    Except FileErr ScanResult :=
  match brutePhase domain o cfg with
  | .error e => .error e
  | .ok bf =>
    .ok ⟨domain,
      pySorted bf.2,
      ⟨(ctPhase domain o cfg).1.card,
       (webPhase domain o cfg).1.card,
       (zonePhase domain o cfg).1.card,
       bf.1.card,
       (pySorted bf.2).length⟩⟩

/-! ### Example fixtures for the claims -/

/-- The running example domain. -/
def exDomain : List Char := str "example.com"

/-- A world in which every request fails and the wordlist is absent. -/
def exOracles : Oracles :=
  ⟨none, none, none, none, fun _ => none, fun _ => .error .nxdomain,
    fun _ => .error .fileNotFound⟩

/-- All phases disabled. -/
def exCfgOff : ScanConfig := ⟨false, false, false, false, none⟩

/-- The report of a scan with all phases disabled. -/
def exResult : ScanResult := ⟨exDomain, [], ⟨0, 0, 0, 0, 0⟩⟩

/-- A world for the brute-force double-count: crt.sh reports
`www.example.com`, every DNS lookup succeeds, and the wordlist holds the
single entry `www`. -/
def c1Oracles : Oracles :=
  ⟨some [str "www.example.com"], none, none, none, fun _ => none, fun _ => .ok (),
    fun _ => .ok [str "www"]⟩

/-- Certificate transparency and brute force enabled. -/
def c1Cfg : ScanConfig := ⟨true, false, false, true, some (str "wl")⟩

/-- The report the code produces in the `c1Oracles` world: note
`brute_force = 1` although the only resolving candidate was already
found by the certificate-transparency phase. -/
def c1Result : ScanResult := ⟨exDomain, [str "www.example.com"], ⟨1, 0, 0, 1, 1⟩⟩

/-- Only brute force enabled, with a wordlist path. -/
def c6Cfg : ScanConfig := ⟨false, false, false, true, some (str "wl")⟩

/-- A world in which opening the wordlist raises a permission error. -/
def c6pOracles : Oracles :=
  ⟨none, none, none, none, fun _ => none, fun _ => .error .nxdomain,
    fun _ => .error .permissionDenied⟩

/-- The configuration with the brute-force phase switched off. -/
def disableBrute (c : ScanConfig) : ScanConfig :=
  ⟨c.enable_ct, c.enable_web, c.enable_zone, false, c.wordlist_path⟩


/-! ### Supporting lemmas: characters -/

theorem char_toNat_ofNat {n : Nat} (h : n < 55296) : (Char.ofNat n).toNat = n := by
  rw [Char.ofNat, dif_pos (Or.inl h)]
  rfl

theorem pyLowerCh_toNat (c : Char) :
    (pyLowerCh c).toNat = if 65 ≤ c.toNat ∧ c.toNat ≤ 90 then c.toNat + 32 else c.toNat := by
  unfold pyLowerCh
  by_cases h : 65 ≤ c.toNat ∧ c.toNat ≤ 90
  · have hn : c.toNat + 32 < 55296 := by omega
    simp [h, char_toNat_ofNat hn]
  · simp [h]

theorem char_toNat_injective {c d : Char} (h : c.toNat = d.toNat) : c = d := by
  apply Char.ext
  exact UInt32.toNat.inj h

theorem pyLowerCh_ne_dot {c : Char} (h : c ≠ '.') : pyLowerCh c ≠ '.' := by
  intro heq
  have ht : (pyLowerCh c).toNat = 46 := by rw [heq]; rfl
  rw [pyLowerCh_toNat] at ht
  by_cases hb : 65 ≤ c.toNat ∧ c.toNat ≤ 90
  · rw [if_pos hb] at ht
    omega
  · rw [if_neg hb] at ht
    exact h (char_toNat_injective (by rw [ht]; rfl))

theorem pyLowerCh_idem (c : Char) : pyLowerCh (pyLowerCh c) = pyLowerCh c := by
  apply char_toNat_injective
  rw [pyLowerCh_toNat (pyLowerCh c), pyLowerCh_toNat c]
  by_cases h : 65 ≤ c.toNat ∧ c.toNat ≤ 90
  · rw [if_pos h, if_neg (by omega)]
  · rw [if_neg h, if_neg h]

theorem pyLower_idem (l : List Char) : pyLower (pyLower l) = pyLower l := by
  unfold pyLower
  rw [List.map_map]
  apply List.map_congr_left
  intro c _
  exact pyLowerCh_idem c

theorem pyLower_append (l₁ l₂ : List Char) :
    pyLower (l₁ ++ l₂) = pyLower l₁ ++ pyLower l₂ := List.map_append _ _ _

/-! ### Supporting lemmas: suffixes and stripping -/

theorem pyEndsWith_iff {d s : List Char} : pyEndsWith d s = true ↔ ∃ t, s = t ++ d := by
  unfold pyEndsWith
  rw [beq_iff_eq]
  constructor
  · intro h
    refine ⟨s.take (s.length - d.length), ?_⟩
    conv_lhs => rw [← List.take_append_drop (s.length - d.length) s]
    rw [h]
  · rintro ⟨t, rfl⟩
    rw [List.length_append, Nat.add_sub_cancel, List.drop_left]

theorem pyEndsWith_append (d t : List Char) : pyEndsWith d (t ++ d) = true :=
  pyEndsWith_iff.mpr ⟨t, rfl⟩

theorem mem_of_pyEndsWith {d s : List Char} (h : pyEndsWith d s = true) {c : Char}
    (hc : c ∈ d) : c ∈ s := by
  obtain ⟨t, rfl⟩ := pyEndsWith_iff.mp h
  exact List.mem_append_right t hc

theorem getLast?_of_pyEndsWith {d s : List Char} (h : pyEndsWith d s = true)
    (hd : d ≠ []) : s.getLast? = d.getLast? := by
  obtain ⟨t, rfl⟩ := pyEndsWith_iff.mp h
  exact List.getLast?_append_of_ne_nil t hd

theorem pyRstripDot_append_dot (l : List Char) :
    pyRstripDot (l ++ ['.']) = pyRstripDot l := by
  unfold pyRstripDot
  rw [List.reverse_append]
  rfl

theorem pyRstripDot_of_no_dot {l : List Char} (h : '.' ∉ l) : pyRstripDot l = l := by
  unfold pyRstripDot
  have hd : l.reverse.dropWhile (· == '.') = l.reverse := by
    apply List.dropWhile_eq_self_iff.mpr
    intro hl hp
    apply h
    have hm : l.reverse.get ⟨0, hl⟩ ∈ l.reverse := List.get_mem l.reverse 0 hl
    rw [beq_iff_eq] at hp
    rw [← hp]
    exact List.mem_reverse.mp hm
  rw [hd, List.reverse_reverse]

/-! ### Supporting lemmas: shape of `re.findall` captures

Every capture returned by `findall` is the text of one repetition of the
group `[a-zA-Z0-9][-a-zA-Z0-9]*\.`: a dotless nonempty core followed by a
single dot.  After `lower()` and `rstrip('.')` such a capture contains no
dot at all, so it can never end with the (dotted) domain: `web_search`
inserts nothing, for every response body. -/

theorem isAlnumCh_ne_dot {c : Char} (h : isAlnumCh c = true) : c ≠ '.' := by
  intro hc
  rw [hc] at h
  exact absurd h (by decide)

theorem isLabelCh_ne_dot {c : Char} (h : isLabelCh c = true) : c ≠ '.' := by
  intro hc
  rw [hc] at h
  exact absurd h (by decide)

theorem matchSeg_shape {s seg : List Char} (h : matchSeg s = some seg) : SegShape seg := by
  cases s with
  | nil => simp [matchSeg] at h
  | cons c rest =>
    simp only [matchSeg] at h
    by_cases hc : isAlnumCh c = true
    · rw [if_pos hc] at h
      split at h
      · simp only [Option.some.injEq] at h
        refine ⟨c :: rest.takeWhile isLabelCh, by rw [← h]; rfl, by simp, ?_⟩
        intro hmem
        rcases List.mem_cons.mp hmem with h1 | h1
        · exact isAlnumCh_ne_dot hc h1.symm
        · exact isLabelCh_ne_dot (List.mem_takeWhile_imp h1) rfl
      · exact absurd h (by simp)
    · rw [if_neg hc] at h
      exact absurd h (by simp)

theorem segChainF_shape {fuel : Nat} {s cap : List Char} {n : Nat}
    (h : (cap, n) ∈ segChainF fuel s) : SegShape cap := by
  induction fuel generalizing s cap n with
  | zero => exact absurd h (by simp [segChainF])
  | succ fuel ih =>
    rw [segChainF] at h
    match hm : matchSeg s, h with
    | none, h => exact absurd h (by simp)
    | some seg, h =>
      rcases List.mem_cons.mp h with h1 | h1
      · rw [(Prod.mk.injEq _ _ _ _).mp h1 |>.1]
        exact matchSeg_shape hm
      · obtain ⟨⟨cap', n'⟩, hmem, heq⟩ := List.mem_map.mp h1
        rw [← (Prod.mk.injEq _ _ _ _).mp heq |>.1]
        exact ih hmem

theorem tryMatch_shape {domain s grp : List Char} {len : Nat}
    (h : tryMatch domain s = some (len, grp)) : SegShape grp := by
  unfold tryMatch at h
  obtain ⟨⟨cap, n⟩, hmem, hf⟩ := List.exists_of_findSome?_eq_some h
  by_cases hp : (s.drop n).take domain.length == domain
  · rw [if_pos hp] at hf
    simp only [Option.some.injEq, Prod.mk.injEq] at hf
    rw [← hf.2]
    exact segChainF_shape (List.mem_reverse.mp hmem)
  · rw [if_neg hp] at hf
    exact absurd hf (by simp)

theorem findallF_succ_cons (domain : List Char) (fuel : Nat) (c : Char) (rest : List Char) :
    findallF domain (fuel + 1) (c :: rest) =
      (match tryMatch domain (c :: rest) with
       | some (len, grp) => grp :: findallF domain fuel ((c :: rest).drop len)
       | none => findallF domain fuel rest) := rfl

theorem findallF_shape {domain : List Char} {fuel : Nat} {s m : List Char}
    (h : m ∈ findallF domain fuel s) : SegShape m := by
  induction fuel generalizing s with
  | zero => exact absurd h (by simp [findallF])
  | succ fuel ih =>
    cases s with
    | nil => exact absurd h (by simp [show findallF domain (fuel + 1) [] = [] from rfl])
    | cons c rest =>
      rw [findallF_succ_cons] at h
      cases hm : tryMatch domain (c :: rest) with
      | some p =>
        obtain ⟨len, grp⟩ := p
        rw [hm] at h
        rcases List.mem_cons.mp h with h1 | h1
        · rw [h1]; exact tryMatch_shape hm
        · exact ih h1
      | none =>
        rw [hm] at h
        exact ih h

theorem findall_shape {domain body m : List Char} (h : m ∈ findall domain body) :
    SegShape m := findallF_shape h

theorem webStep_of_shape {domain : List Char} (hdot : '.' ∈ domain) (st : NameState)
    {m : List Char} (hm : SegShape m) : webStep domain st m = st := by
  obtain ⟨core, rfl, hne, hnd⟩ := hm
  have hnodot : '.' ∉ pyLower core := by
    intro hmem
    obtain ⟨c, hc, hceq⟩ := List.mem_map.mp hmem
    exact pyLowerCh_ne_dot (fun h => hnd (h ▸ hc)) hceq
  have hsub : pyRstripDot (pyLower (core ++ ['.'])) = pyLower core := by
    rw [pyLower_append]
    have hdot1 : pyLower ['.'] = ['.'] := by decide
    rw [hdot1, pyRstripDot_append_dot]
    exact pyRstripDot_of_no_dot hnodot
  have hends : pyEndsWith domain (pyLower core) = false := by
    cases hb : pyEndsWith domain (pyLower core) with
    | false => rfl
    | true => exact absurd (mem_of_pyEndsWith hb hdot) hnodot
  unfold webStep
  rw [hsub, hends]
  simp

theorem foldl_webStep_id {domain : List Char} (hdot : '.' ∈ domain) :
    ∀ ms : List (List Char), (∀ m ∈ ms, SegShape m) →
      ∀ st : NameState, ms.foldl (webStep domain) st = st := by
  intro ms
  induction ms with
  | nil => intro _ st; rfl
  | cons m ms ih =>
    intro hall st
    rw [List.foldl_cons, webStep_of_shape hdot st (hall m (List.mem_cons_self m ms))]
    exact ih (fun x hx => hall x (List.mem_cons_of_mem m hx)) st

theorem webSource_id {domain : List Char} (hdot : '.' ∈ domain) (st : NameState)
    (resp : Option (List Char)) : webSource domain st resp = st := by
  cases resp with
  | none => rfl
  | some body =>
    exact foldl_webStep_id hdot (findall domain body) (fun m hm => findall_shape hm) st

theorem web_search_eq {domain : List Char} (hdot : '.' ∈ domain)
    (r1 r2 : Option (List Char)) (pre : Finset (List Char)) :
    web_search domain r1 r2 pre = (∅, pre) := by
  unfold web_search
  rw [webSource_id hdot _ r1, webSource_id hdot _ r2]

/-! ### Supporting lemmas: the shared set equals the pre-set union the found set

Every insertion a phase performs goes to its `found` set and to
`self.subdomains` together, so after any number of steps the shared set
is the union of its initial value and the phase's `found` set. -/

/-- The invariant `snd = A ∪ fst` is preserved by a fold whose step
preserves it. -/
theorem foldl_union_inv {β : Type} (g : NameState → β → NameState)
    (hg : ∀ st b A, st.2 = A ∪ st.1 → (g st b).2 = A ∪ (g st b).1) :
    ∀ (l : List β) (st : NameState) (A : Finset (List Char)),
      st.2 = A ∪ st.1 → (l.foldl g st).2 = A ∪ (l.foldl g st).1 := by
  intro l
  induction l with
  | nil => intro st A h; exact h
  | cons b bs ih => intro st A h; exact ih (g st b) A (hg st b A h)

theorem insert_both_inv (x : List Char) {st : NameState} {A : Finset (List Char)}
    (h : st.2 = A ∪ st.1) : insert x st.2 = A ∪ insert x st.1 := by
  rw [h, Finset.union_insert]

theorem ctStep_union (domain : List Char) :
    ∀ (st : NameState) (line : List Char) (A : Finset (List Char)),
      st.2 = A ∪ st.1 → (ctStep domain st line).2 = A ∪ (ctStep domain st line).1 := by
  intro st line A h
  unfold ctStep
  split
  · split
    · exact insert_both_inv _ h
    · exact h
  · exact h

theorem search_ct_logs_union (domain : List Char) (resp : Option (List (List Char)))
    (pre : Finset (List Char)) :
    (search_ct_logs domain resp pre).2 = pre ∪ (search_ct_logs domain resp pre).1 := by
  cases resp with
  | none => exact (Finset.union_empty pre).symm
  | some entries =>
    exact foldl_union_inv _
      (fun st nv A h => foldl_union_inv _ (ctStep_union domain) (pySplitNl nv) st A h)
      entries (∅, pre) pre (Finset.union_empty pre).symm

theorem webStep_union (domain : List Char) :
    ∀ (st : NameState) (m : List Char) (A : Finset (List Char)),
      st.2 = A ∪ st.1 → (webStep domain st m).2 = A ∪ (webStep domain st m).1 := by
  intro st m A h
  unfold webStep
  split
  · exact insert_both_inv _ h
  · exact h

theorem web_search_union (domain : List Char) (r1 r2 : Option (List Char))
    (pre : Finset (List Char)) :
    (web_search domain r1 r2 pre).2 = pre ∪ (web_search domain r1 r2 pre).1 := by
  have hsrc : ∀ (st : NameState) (resp : Option (List Char)) (A : Finset (List Char)),
      st.2 = A ∪ st.1 → (webSource domain st resp).2 = A ∪ (webSource domain st resp).1 := by
    intro st resp A h
    cases resp with
    | none => exact h
    | some body => exact foldl_union_inv _ (webStep_union domain) _ st A h
  exact hsrc _ r2 pre (hsrc _ r1 pre (Finset.union_empty pre).symm)

theorem zoneNodes_union (domain : List Char) (nodes : List (List Char)) :
    ∀ (st : NameState) (A : Finset (List Char)),
      st.2 = A ∪ st.1 → (zoneNodes domain st nodes).2 = A ∪ (zoneNodes domain st nodes).1 := by
  intro st A h
  exact foldl_union_inv _ (fun st n A h => insert_both_inv _ h) nodes st A h

theorem zone_transfer_union (domain : List Char) (nsResp : Option (List (List Char)))
    (xfr : List Char → Option (List (List Char))) (pre : Finset (List Char)) :
    (zone_transfer domain nsResp xfr pre).2 = pre ∪ (zone_transfer domain nsResp xfr pre).1 := by
  cases nsResp with
  | none => exact (Finset.union_empty pre).symm
  | some nss =>
    apply foldl_union_inv _ _ nss (∅, pre) pre (Finset.union_empty pre).symm
    intro st ns A h
    cases hx : xfr (pyRstripDot ns) with
    | none => simpa [hx] using h
    | some nodes => simpa [hx] using zoneNodes_union domain nodes st A h

/-! ### Supporting lemmas: the brute-force fold -/

theorem bf_foldl_eq (domain : List Char) (dns : List Char → Except DnsErr Unit) :
    ∀ (ws : List (List Char)) (F S : Finset (List Char)),
      ws.foldl (fun st w =>
        if resolve_dns dns (w ++ '.' :: domain) then
          (insert (w ++ '.' :: domain) st.1, insert (w ++ '.' :: domain) st.2)
        else st) (F, S) =
      (F ∪ bfCandSet domain (resolve_dns dns) ws, S ∪ bfCandSet domain (resolve_dns dns) ws) := by
  intro ws
  induction ws with
  | nil =>
    intro F S
    simp [bfCandSet]
  | cons w ws ih =>
    intro F S
    rw [List.foldl_cons, bfCandSet]
    cases hr : resolve_dns dns (w ++ '.' :: domain) with
    | false =>
      simp only [hr, Bool.false_eq_true, if_false]
      exact ih F S
    | true =>
      simp only [hr, if_true]
      rw [ih, Finset.insert_union, Finset.insert_union,
        ← Finset.union_insert, ← Finset.union_insert]

theorem dns_bruteforce_ok (domain : List Char) (dns : List Char → Except DnsErr Unit)
    (lines : List (List Char)) (pre : Finset (List Char)) :
    dns_bruteforce domain dns (.ok lines) pre =
      .ok (bfCandSet domain (resolve_dns dns) (wordsOf lines),
        pre ∪ bfCandSet domain (resolve_dns dns) (wordsOf lines)) := by
  unfold dns_bruteforce
  show Except.ok ((wordsOf lines).foldl _ (∅, pre)) = _
  rw [bf_foldl_eq, Finset.empty_union]

theorem mem_bfCandSet {domain : List Char} {res : List Char → Bool} :
    ∀ {ws : List (List Char)} {s : List Char}, s ∈ bfCandSet domain res ws →
      ∃ w, s = w ++ '.' :: domain := by
  intro ws
  induction ws with
  | nil => intro s h; exact absurd h (by simp [bfCandSet])
  | cons w ws ih =>
    intro s h
    rw [bfCandSet] at h
    by_cases hr : res (w ++ '.' :: domain) = true
    · rw [if_pos hr] at h
      rcases Finset.mem_insert.mp h with h1 | h1
      · exact ⟨w, h1⟩
      · exact ih h1
    · rw [if_neg hr] at h
      exact ih h

/-! ### Supporting lemmas: the sorted report -/

theorem pySorted_sorted (s : Finset (List Char)) : List.Sorted (· ≤ ·) (pySorted s) := by
  rcases s with ⟨v, hv⟩
  induction v using Quotient.inductionOn with
  | h l => exact List.sorted_insertionSort _ l

theorem pySorted_nodup (s : Finset (List Char)) : (pySorted s).Nodup := by
  rcases s with ⟨v, hv⟩
  induction v using Quotient.inductionOn with
  | h l =>
    exact ((List.perm_insertionSort _ l).symm).nodup (Multiset.coe_nodup.mp hv)

theorem pySorted_length (s : Finset (List Char)) : (pySorted s).length = s.card := by
  rcases s with ⟨v, hv⟩
  induction v using Quotient.inductionOn with
  | h l => exact (List.perm_insertionSort _ l).length_eq

/-! ### Supporting lemmas: unpacking `run_all` -/

theorem run_all_of_brute_ok {domain : List Char} {o : Oracles} {cfg : ScanConfig}
    {bf : NameState} (h : brutePhase domain o cfg = .ok bf) :
    run_all domain o cfg = .ok ⟨domain, pySorted bf.2,
      ⟨(ctPhase domain o cfg).1.card, (webPhase domain o cfg).1.card,
       (zonePhase domain o cfg).1.card, bf.1.card, (pySorted bf.2).length⟩⟩ := by
  unfold run_all
  rw [h]

theorem run_all_ok_inv {domain : List Char} {o : Oracles} {cfg : ScanConfig}
    {r : ScanResult} (h : run_all domain o cfg = .ok r) :
    ∃ bf : NameState, brutePhase domain o cfg = .ok bf ∧
      r = ⟨domain, pySorted bf.2,
        ⟨(ctPhase domain o cfg).1.card, (webPhase domain o cfg).1.card,
         (zonePhase domain o cfg).1.card, bf.1.card, (pySorted bf.2).length⟩⟩ := by
  unfold run_all at h
  cases hb : brutePhase domain o cfg with
  | error e => rw [hb] at h; exact absurd h (by simp)
  | ok bf =>
    rw [hb] at h
    exact ⟨bf, rfl, (Except.ok.inj h).symm⟩

theorem ctPhase_snd (domain : List Char) (o : Oracles) (cfg : ScanConfig) :
    (ctPhase domain o cfg).2 = (ctPhase domain o cfg).1 := by
  unfold ctPhase
  by_cases hc : cfg.enable_ct = true
  · rw [if_pos hc, search_ct_logs_union, Finset.empty_union]
  · rw [if_neg hc]

theorem webPhase_snd (domain : List Char) (o : Oracles) (cfg : ScanConfig) :
    (webPhase domain o cfg).2 = (ctPhase domain o cfg).1 ∪ (webPhase domain o cfg).1 := by
  unfold webPhase
  by_cases hc : cfg.enable_web = true
  · rw [if_pos hc, web_search_union, ctPhase_snd]
  · rw [if_neg hc, ctPhase_snd, Finset.union_empty]

theorem zonePhase_snd (domain : List Char) (o : Oracles) (cfg : ScanConfig) :
    (zonePhase domain o cfg).2 =
      (ctPhase domain o cfg).1 ∪ (webPhase domain o cfg).1 ∪ (zonePhase domain o cfg).1 := by
  unfold zonePhase
  by_cases hc : cfg.enable_zone = true
  · rw [if_pos hc, zone_transfer_union, webPhase_snd]
  · rw [if_neg hc, webPhase_snd, Finset.union_empty]

theorem dns_bruteforce_ok_union {domain : List Char} {dns : List Char → Except DnsErr Unit}
    {wl : Except FileErr (List (List Char))} {pre : Finset (List Char)}
    {f aft : Finset (List Char)} (h : dns_bruteforce domain dns wl pre = .ok (f, aft)) :
    aft = pre ∪ f := by
  match wl, h with
  | .ok lines, h =>
    rw [dns_bruteforce_ok] at h
    have := Except.ok.inj h
    rw [← (Prod.mk.injEq _ _ _ _).mp this |>.1, (Prod.mk.injEq _ _ _ _).mp this |>.2]
  | .error .fileNotFound, h =>
    have := Except.ok.inj h
    rw [← (Prod.mk.injEq _ _ _ _).mp this |>.1, (Prod.mk.injEq _ _ _ _).mp this |>.2,
      Finset.union_empty]
  | .error .permissionDenied, h => exact absurd h (by simp [dns_bruteforce])
  | .error .otherErr, h => exact absurd h (by simp [dns_bruteforce])

theorem brutePhase_snd {domain : List Char} {o : Oracles} {cfg : ScanConfig}
    {bf : NameState} (h : brutePhase domain o cfg = .ok bf) :
    bf.2 = (ctPhase domain o cfg).1 ∪ (webPhase domain o cfg).1 ∪
      (zonePhase domain o cfg).1 ∪ bf.1 := by
  unfold brutePhase at h
  by_cases hb : bruteRuns cfg = true
  · rw [if_pos hb] at h
    obtain ⟨f, aft⟩ := bf
    have := dns_bruteforce_ok_union h
    rw [this, zonePhase_snd]
  · rw [if_neg hb] at h
    have := Except.ok.inj h
    rw [← this, zonePhase_snd, Finset.union_empty]

/-! ### Supporting lemmas: membership invariants of the phase folds -/

theorem foldl_mem_inv {β : Type} (P : List Char → Prop) (g : NameState → β → NameState)
    (hg : ∀ st b s, s ∈ (g st b).1 → s ∈ st.1 ∨ P s) :
    ∀ (l : List β) (st : NameState) (s : List Char),
      s ∈ (l.foldl g st).1 → s ∈ st.1 ∨ P s := by
  intro l
  induction l with
  | nil => intro st s h; exact Or.inl h
  | cons b bs ih =>
    intro st s h
    rcases ih (g st b) s h with h1 | h1
    · exact hg st b s h1
    · exact Or.inr h1

theorem ctStep_mem (domain : List Char) :
    ∀ (st : NameState) (line s : List Char),
      s ∈ (ctStep domain st line).1 → s ∈ st.1 ∨ CtProp domain s := by
  intro st line s h
  unfold ctStep at h
  by_cases h1 : (pyEndsWith domain (pyLower (pyStrip line)) &&
      !((pyLower (pyStrip line)).contains '*')) = true
  · rw [if_pos h1] at h
    by_cases h2 : pyLower (pyStrip line) ∉ st.2
    · rw [if_pos h2] at h
      rcases Finset.mem_insert.mp h with h3 | h3
      · rcases Bool.and_eq_true_iff.mp h1 with ⟨he, hw⟩
        refine Or.inr ⟨h3 ▸ he, ?_, h3 ▸ pyLower_idem (pyStrip line)⟩
        rw [h3]
        simpa using hw
      · exact Or.inl h3
    · rw [if_neg h2] at h
      exact Or.inl h
  · rw [if_neg h1] at h
    exact Or.inl h

theorem search_ct_logs_mem {domain s : List Char} {resp : Option (List (List Char))}
    {pre : Finset (List Char)} (h : s ∈ (search_ct_logs domain resp pre).1) :
    CtProp domain s := by
  cases resp with
  | none => exact absurd h (by simp [search_ct_logs])
  | some entries =>
    have := foldl_mem_inv (CtProp domain)
      (fun st nv => (pySplitNl nv).foldl (ctStep domain) st)
      (fun st nv s hs => foldl_mem_inv (CtProp domain) (ctStep domain)
        (ctStep_mem domain) (pySplitNl nv) st s hs)
      entries (∅, pre) s h
    rcases this with h1 | h1
    · exact absurd h1 (by simp)
    · exact h1

theorem zoneNodes_mem (domain : List Char) (nodes : List (List Char)) :
    ∀ (st : NameState) (s : List Char),
      s ∈ (zoneNodes domain st nodes).1 → s ∈ st.1 ∨ ZoneProp domain s := by
  intro st s h
  refine foldl_mem_inv (ZoneProp domain) _ ?_ nodes st s h
  intro st n s hs
  rcases Finset.mem_insert.mp hs with h1 | h1
  · exact Or.inr ⟨n, h1⟩
  · exact Or.inl h1

theorem zone_transfer_mem {domain s : List Char} {nsResp : Option (List (List Char))}
    {xfr : List Char → Option (List (List Char))} {pre : Finset (List Char)}
    (h : s ∈ (zone_transfer domain nsResp xfr pre).1) : ZoneProp domain s := by
  cases nsResp with
  | none => exact absurd h (by simp [zone_transfer])
  | some nss =>
    have := foldl_mem_inv (ZoneProp domain)
      (fun st ns => match xfr (pyRstripDot ns) with
        | none => st
        | some nodes => zoneNodes domain st nodes) ?_ nss (∅, pre) s h
    · rcases this with h1 | h1
      · exact absurd h1 (by simp)
      · exact h1
    · intro st ns s hs
      dsimp only at hs
      cases hx : xfr (pyRstripDot ns) with
      | none => rw [hx] at hs; exact Or.inl hs
      | some nodes => rw [hx] at hs; exact zoneNodes_mem domain nodes st s hs

theorem zone_foldl_id (domain : List Char) (xfr : List Char → Option (List (List Char))) :
    ∀ (nss : List (List Char)) (st : NameState),
      (∀ ns ∈ nss, xfr (pyRstripDot ns) = none) →
      nss.foldl (fun st ns =>
        match xfr (pyRstripDot ns) with
        | none => st
        | some nodes => zoneNodes domain st nodes) st = st := by
  intro nss
  induction nss with
  | nil => intro st _; rfl
  | cons ns nss ih =>
    intro st hall
    rw [List.foldl_cons, hall ns (List.mem_cons_self ns nss)]
    exact ih st (fun x hx => hall x (List.mem_cons_of_mem ns hx))

theorem dns_bruteforce_ok_fst {domain : List Char} {dns : List Char → Except DnsErr Unit}
    {wl : Except FileErr (List (List Char))} {pre : Finset (List Char)}
    {f aft : Finset (List Char)} (h : dns_bruteforce domain dns wl pre = .ok (f, aft)) :
    f = ∅ ∨ ∃ lines, wl = .ok lines ∧ f = bfCandSet domain (resolve_dns dns) (wordsOf lines) := by
  match wl, h with
  | .ok lines, h =>
    rw [dns_bruteforce_ok] at h
    exact Or.inr ⟨lines, rfl, ((Prod.mk.injEq _ _ _ _).mp (Except.ok.inj h) |>.1).symm⟩
  | .error .fileNotFound, h =>
    exact Or.inl ((Prod.mk.injEq _ _ _ _).mp (Except.ok.inj h) |>.1).symm
  | .error .permissionDenied, h => exact absurd h (by simp [dns_bruteforce])
  | .error .otherErr, h => exact absurd h (by simp [dns_bruteforce])

/-! ### Concrete behaviour of the extraction and cleaning models

These evaluations pin the embedding to the behaviour of the Python
originals on concrete inputs: `re.findall` with the capturing pattern
returns the last `label.` group of each match, and the domain-cleaning
path works as intended when the input carries no scheme. -/

/-- On a body that is exactly one match, `findall` returns the group
capture `"www."`, not the match `"www.example.com"`. -/
theorem findall_group_capture :
    findall (str "example.com") (str "www.example.com") = [str "www."] := by decide

/-- Two matches inside surrounding text: the captures are the last label
of each match; the trailing dot of the body is not part of a match. -/
theorem findall_group_capture_multi :
    findall (str "example.com") (str "a x.y.example.com,b.example.com.") =
      [str "y.", str "b."] := by decide

/-- Cleaning an input without a scheme retains the host, lowercases it
and validates it. -/
theorem cleanDomain_no_scheme :
    cleanDomain (str "EXAMPLE.com/path") = str "example.com" ∧
    validDomain (str "example.com") = true := ⟨by decide, by decide⟩

/-! ## The claims -/

/-- C1, counterexample: with the NameSet pre-seeded by the
certificate-transparency phase (which finds `www.example.com`), a
brute-force run whose only resolving candidate is that same name still
reports `brute_force = 1` in the ScanResult, while the number of distinct
resolving candidates not already present is `0`.  The claim's equality
fails at this input. -/
theorem C1_counterexample :
    run_all exDomain c1Oracles c1Cfg = .ok c1Result ∧
    c1Result.stats.brute_force ≠
      (bfCandSet exDomain (resolve_dns c1Oracles.dns) (wordsOf [str "www"]) \
        (zonePhase exDomain c1Oracles c1Cfg).2).card :=
  ⟨by rfl, by decide⟩

/-- C1, amended: the brute-force statistic reported in the ScanResult
equals the number of distinct resolving candidates of the wordlist,
whether or not they were already present in the NameSet from earlier
phases (the code inserts every resolving candidate into `found` without a
membership test); a candidate already present still does not increase
`total_unique`, because the shared set only grows by the genuinely new
names. -/
theorem C1_brute_count (domain : List Char) :
    (∀ (dns : List Char → Except DnsErr Unit) (lines : List (List Char))
        (pre : Finset (List Char)),
      dns_bruteforce domain dns (.ok lines) pre =
        .ok (bfCandSet domain (resolve_dns dns) (wordsOf lines),
          pre ∪ bfCandSet domain (resolve_dns dns) (wordsOf lines)) ∧
      (pre ∪ bfCandSet domain (resolve_dns dns) (wordsOf lines)).card =
        pre.card + (bfCandSet domain (resolve_dns dns) (wordsOf lines) \ pre).card) ∧
    (∀ (o : Oracles) (cfg : ScanConfig) (r : ScanResult) (p : List Char)
        (lines : List (List Char)),
      cfg.wordlist_path = some p → bruteRuns cfg = true →
      o.readWordlist p = .ok lines → run_all domain o cfg = .ok r →
      r.stats.brute_force = (bfCandSet domain (resolve_dns o.dns) (wordsOf lines)).card) := by
  constructor
  · intro dns lines pre
    refine ⟨dns_bruteforce_ok domain dns lines pre, ?_⟩
    rw [← Finset.union_sdiff_self_eq_union]
    exact Finset.card_union_of_disjoint Finset.disjoint_sdiff
  · intro o cfg r p lines hp hb hr hrun
    obtain ⟨bf, hbf, rfl⟩ := run_all_ok_inv hrun
    unfold brutePhase at hbf
    rw [if_pos hb, hp] at hbf
    rw [show (some p).getD ([] : List Char) = p from rfl, hr, dns_bruteforce_ok] at hbf
    have hbfe := Except.ok.inj hbf
    show bf.1.card = _
    rw [← hbfe]

/-- C1, witness for the amended claim at the concrete double-count
scenario. -/
theorem C1_witness :
    c1Result.stats.brute_force =
      (bfCandSet exDomain (resolve_dns c1Oracles.dns) (wordsOf [str "www"])).card :=
  (C1_brute_count exDomain).2 c1Oracles c1Cfg c1Result (str "wl") [str "www"]
    rfl rfl rfl (by rfl)

/-- C2: because the extraction pattern carries a capturing group,
`re.findall` returns only the last `label.` repetition of each match;
after lowering and stripping the trailing dots that capture contains no
dot, so it can never end with the (dotted) target domain and the
re-verification rejects it.  Passive web-source extraction therefore
inserts nothing into the NameSet, for every response body — not the
matched subdomain substrings the claim describes. -/
theorem C2_web_extraction_empty (domain : List Char) (hdot : '.' ∈ domain)
    (r1 r2 : Option (List Char)) (pre : Finset (List Char)) :
    web_search domain r1 r2 pre = (∅, pre) :=
  web_search_eq hdot r1 r2 pre

/-- C2, witness: a body that is exactly `www.example.com` — which the
spec says must be extracted — yields an empty found set. -/
theorem C2_witness :
    web_search exDomain (some (str "www.example.com")) none ∅ =
      ((∅ : Finset (List Char)), (∅ : Finset (List Char))) :=
  C2_web_extraction_empty exDomain (by decide) (some (str "www.example.com")) none ∅

/-- C3, counterexample: the certificate-transparency phase checks
`endswith(domain)`, not `endswith("." + domain)`, so a record naming
`badexample.com` is inserted for target `example.com`, violating the
claimed SubdomainName invariant. -/
theorem C3_counterexample :
    str "badexample.com" ∈ (search_ct_logs exDomain (some [str "badexample.com"]) ∅).1 ∧
    pyEndsWith ('.' :: exDomain) (str "badexample.com") = false :=
  ⟨by decide, by decide⟩

/-- C3, amended: names inserted by certificate transparency are
lowercase, wildcard-free, end with the domain string (though not
necessarily with `"." + domain`) and have no trailing dot; web search
inserts nothing; zone-transfer names are lowercase, end with
`"." + domain` and have no trailing dot (but are not wildcard-filtered);
brute-force names end with `"." + domain` and have no trailing dot (but
are inserted verbatim, so they are lowercase only when the wordlist entry
is). -/
theorem C3_inserted_names (domain : List Char) (hdot : '.' ∈ domain)
    (hlow : pyLower domain = domain) (hlast : domain.getLast? ≠ some '.') :
    (∀ (resp : Option (List (List Char))) (pre : Finset (List Char)) (s : List Char),
      s ∈ (search_ct_logs domain resp pre).1 →
      pyLower s = s ∧ pyEndsWith domain s = true ∧ s.contains '*' = false ∧
        s.getLast? ≠ some '.') ∧
    (∀ (r1 r2 : Option (List Char)) (pre : Finset (List Char)),
      (web_search domain r1 r2 pre).1 = ∅) ∧
    (∀ (nsResp : Option (List (List Char))) (xfr : List Char → Option (List (List Char)))
        (pre : Finset (List Char)) (s : List Char),
      s ∈ (zone_transfer domain nsResp xfr pre).1 →
      pyLower s = s ∧ pyEndsWith ('.' :: domain) s = true ∧ s.getLast? ≠ some '.') ∧
    (∀ (dns : List Char → Except DnsErr Unit) (wl : Except FileErr (List (List Char)))
        (pre : Finset (List Char)) (f aft : Finset (List Char)) (s : List Char),
      dns_bruteforce domain dns wl pre = .ok (f, aft) → s ∈ f →
      pyEndsWith ('.' :: domain) s = true ∧ s.getLast? ≠ some '.') := by
  have hne : domain ≠ [] := List.ne_nil_of_mem hdot
  have hdotdom : pyLower ('.' :: domain) = '.' :: domain := by
    have h1 : pyLowerCh '.' = '.' := by decide
    show pyLowerCh '.' :: pyLower domain = _
    rw [h1, hlow]
  have hcons : ∀ s : List Char, pyEndsWith ('.' :: domain) s = true →
      s.getLast? ≠ some '.' := by
    intro s hs hlast'
    have h1 : s.getLast? = ('.' :: domain).getLast? :=
      getLast?_of_pyEndsWith hs (by simp)
    have h2 : ('.' :: domain).getLast? = domain.getLast? :=
      List.getLast?_append_of_ne_nil ['.'] hne
    exact hlast (by rw [← h2, ← h1, hlast'])
  refine ⟨?_, ?_, ?_, ?_⟩
  · intro resp pre s hs
    obtain ⟨he, hw, hl⟩ := search_ct_logs_mem hs
    refine ⟨hl, he, hw, ?_⟩
    intro hlast'
    rw [getLast?_of_pyEndsWith he hne] at hlast'
    exact hlast hlast'
  · intro r1 r2 pre
    rw [web_search_eq hdot]
  · intro nsResp xfr pre s hs
    obtain ⟨n, rfl⟩ := zone_transfer_mem hs
    have hform : pyLower (n ++ '.' :: domain) = pyLower n ++ '.' :: domain := by
      rw [show n ++ '.' :: domain = n ++ (['.'] ++ domain) from rfl, ← List.append_assoc,
        pyLower_append, pyLower_append]
      rw [show pyLower ['.'] = ['.'] from by decide, hlow, List.append_assoc]
      rfl
    have hew : pyEndsWith ('.' :: domain) (pyLower (n ++ '.' :: domain)) = true := by
      rw [hform]
      exact pyEndsWith_append _ _
    exact ⟨pyLower_idem _, hew, hcons _ hew⟩
  · intro dns wl pre f aft s hok hs
    rcases dns_bruteforce_ok_fst hok with h1 | ⟨lines, rfl, rfl⟩
    · rw [h1] at hs
      exact absurd hs (by simp)
    · obtain ⟨w, rfl⟩ := mem_bfCandSet hs
      have hew : pyEndsWith ('.' :: domain) (w ++ '.' :: domain) = true :=
        pyEndsWith_append _ _
      exact ⟨hew, hcons _ hew⟩

/-- C3, witness: the amended invariant at a concrete
certificate-transparency insertion for `example.com`. -/
theorem C3_witness :
    pyLower (str "www.example.com") = str "www.example.com" ∧
    pyEndsWith exDomain (str "www.example.com") = true ∧
    (str "www.example.com").contains '*' = false ∧
    (str "www.example.com").getLast? ≠ some '.' :=
  (C3_inserted_names exDomain (by decide) (by decide) (by decide)).1
    (some [str "www.example.com"]) ∅ (str "www.example.com") (by decide)

/-- C4: domain cleaning and validation evaluated on the three inputs the
spec fixes.  The code maps `"http://EXAMPLE.com/path"` to `"http:"` —
`urlparse` is applied to `"http://" + input`, so an input already
carrying a scheme keeps `"http:"` as its netloc — and then rejects it as
an invalid domain, where the claim requires `"example.com"` to be
accepted; the other two inputs behave as claimed. -/
theorem C4_domain_validation :
    cleanDomain (str "http://EXAMPLE.com/path") = str "http:" ∧
    validDomain (cleanDomain (str "http://EXAMPLE.com/path")) = false ∧
    cleanDomain (str "not a domain") = str "not a domain" ∧
    validDomain (cleanDomain (str "not a domain")) = false ∧
    cleanDomain (str "a.b.example.co.uk") = str "a.b.example.co.uk" ∧
    validDomain (cleanDomain (str "a.b.example.co.uk")) = true :=
  ⟨by decide, by decide, by decide, by decide, by decide, by decide⟩

/-- C5: `resolve_dns` returns `True` exactly when the A lookup returns an
answer, and `False` for every failure (NXDOMAIN, timeout, SERVFAIL or
anything else); its type is `Bool`, so no resolution error ever reaches
the caller. -/
theorem C5_resolve_never_raises (oracle : List Char → Except DnsErr Unit)
    (hostname : List Char) :
    (resolve_dns oracle hostname = true ↔ oracle hostname = .ok ()) ∧
    (∀ e, oracle hostname = .error e → resolve_dns oracle hostname = false) := by
  constructor
  · unfold resolve_dns
    cases ho : oracle hostname with
    | ok u => cases u; simp
    | error e => simp
  · intro e he
    unfold resolve_dns
    rw [he]

/-- C5, witness: a timing-out lookup yields `False`. -/
theorem C5_witness :
    resolve_dns (fun _ => .error .timeout) (str "www.example.com") = false :=
  (C5_resolve_never_raises (fun _ => .error .timeout) (str "www.example.com")).2
    .timeout rfl

/-- C6, counterexample: a wordlist path that cannot be opened for a
reason other than non-existence (here a permission error) propagates out
of the brute-force phase and aborts the whole scan — `run_all` returns
the error instead of a report, so the scan does not continue. -/
theorem C6_counterexample :
    run_all exDomain c6pOracles c6Cfg = .error .permissionDenied := by rfl

/-- C6, amended: only a missing wordlist (`FileNotFoundError`) is handled
locally: in that case the scan behaves exactly as if brute force were
disabled — it completes, the other phases are unaffected and the
brute-force statistic is zero.  Any other open/read failure propagates
(see the counterexample). -/
theorem C6_wordlist_missing (domain : List Char) (o : Oracles) (cfg : ScanConfig)
    (p : List Char) (hp : cfg.wordlist_path = some p)
    (hr : o.readWordlist p = .error .fileNotFound) :
    run_all domain o cfg = run_all domain o (disableBrute cfg) ∧
    (∀ r : ScanResult, run_all domain o cfg = .ok r → r.stats.brute_force = 0) := by
  have hdis : brutePhase domain o (disableBrute cfg) =
      .ok (∅, (zonePhase domain o cfg).2) := rfl
  have hb : brutePhase domain o cfg = brutePhase domain o (disableBrute cfg) := by
    unfold brutePhase
    by_cases hbr : bruteRuns cfg = true
    · rw [if_pos hbr, hp]
      show dns_bruteforce domain o.dns (o.readWordlist p) _ = _
      rw [hr]
      rfl
    · rw [if_neg hbr]
      rfl
  constructor
  · unfold run_all
    rw [hb]
    rfl
  · intro r hrun
    obtain ⟨bf, hbf, rfl⟩ := run_all_ok_inv hrun
    rw [hb, hdis] at hbf
    have := Except.ok.inj hbf
    show bf.1.card = 0
    rw [← this]
    exact Finset.card_empty

/-- C6, witness: a missing wordlist at a concrete configuration leaves
the scan equal to the brute-force-disabled scan. -/
theorem C6_witness :
    run_all exDomain exOracles c6Cfg = run_all exDomain exOracles (disableBrute c6Cfg) :=
  (C6_wordlist_missing exDomain exOracles c6Cfg (str "wl") rfl rfl).1

/-- C7: the report's subdomain sequence is sorted ascending in the
lexicographic order, has no duplicates, and `total_unique` is its
length. -/
theorem C7_sorted_report (domain : List Char) (o : Oracles) (cfg : ScanConfig)
    (r : ScanResult) (h : run_all domain o cfg = .ok r) :
    List.Sorted (· ≤ ·) r.subdomains ∧ r.subdomains.Nodup ∧
      r.stats.total_unique = r.subdomains.length := by
  obtain ⟨bf, hb, rfl⟩ := run_all_ok_inv h
  exact ⟨pySorted_sorted bf.2, pySorted_nodup bf.2, rfl⟩

/-- C7, witness at the all-disabled scan. -/
theorem C7_witness :
    List.Sorted (· ≤ ·) exResult.subdomains ∧ exResult.subdomains.Nodup ∧
      exResult.stats.total_unique = exResult.subdomains.length :=
  C7_sorted_report exDomain exOracles exCfgOff exResult (by rfl)

/-- C8: splitting the `name_value` field `"*.example.com\nwww.example.com"`
on newlines and filtering by domain suffix and wildcard exclusion keeps
`www.example.com` and discards the wildcard entry. -/
theorem C8_ct_extraction :
    search_ct_logs exDomain (some [str "*.example.com\nwww.example.com"]) ∅ =
      ({str "www.example.com"}, {str "www.example.com"}) ∧
    str "www.example.com" ∈
      (search_ct_logs exDomain (some [str "*.example.com\nwww.example.com"]) ∅).1 ∧
    str "*.example.com" ∉
      (search_ct_logs exDomain (some [str "*.example.com\nwww.example.com"]) ∅).1 :=
  ⟨by decide, by decide, by decide⟩

/-- C9: when the NS lookup fails, or every nameserver's AXFR attempt
fails, the zone-transfer phase returns the empty found set and the
untouched NameSet; the phase is a total function into pairs of sets, so
no failure escapes it. -/
theorem C9_zone_failures_swallowed (domain : List Char) (nss : List (List Char))
    (xfr : List Char → Option (List (List Char))) (pre : Finset (List Char))
    (h : ∀ ns ∈ nss, xfr (pyRstripDot ns) = none) :
    zone_transfer domain (some nss) xfr pre = (∅, pre) ∧
    zone_transfer domain none xfr pre = (∅, pre) := by
  constructor
  · unfold zone_transfer
    exact zone_foldl_id domain xfr nss (∅, pre) h
  · rfl

/-- C9, witness: one refusing nameserver. -/
theorem C9_witness :
    zone_transfer exDomain (some [str "ns1.example.com."]) (fun _ => none) ∅ =
      ((∅ : Finset (List Char)), (∅ : Finset (List Char))) :=
  (C9_zone_failures_swallowed exDomain [str "ns1.example.com."] (fun _ => none) ∅
    (fun _ _ => rfl)).1

/-- C10: every phase leaves the shared NameSet equal to the union of the
set it received and the set of names it returned as found, and the final
report's subdomain list is the sorted union of the four phases' found
sets (the set starts empty and only ever grows). -/
theorem C10_nameset_union (domain : List Char) :
    (∀ (resp : Option (List (List Char))) (pre : Finset (List Char)),
      (search_ct_logs domain resp pre).2 = pre ∪ (search_ct_logs domain resp pre).1) ∧
    (∀ (r1 r2 : Option (List Char)) (pre : Finset (List Char)),
      (web_search domain r1 r2 pre).2 = pre ∪ (web_search domain r1 r2 pre).1) ∧
    (∀ (nsResp : Option (List (List Char))) (xfr : List Char → Option (List (List Char)))
        (pre : Finset (List Char)),
      (zone_transfer domain nsResp xfr pre).2 = pre ∪ (zone_transfer domain nsResp xfr pre).1) ∧
    (∀ (dns : List Char → Except DnsErr Unit) (wl : Except FileErr (List (List Char)))
        (pre f aft : Finset (List Char)),
      dns_bruteforce domain dns wl pre = .ok (f, aft) → aft = pre ∪ f) ∧
    (∀ (o : Oracles) (cfg : ScanConfig) (bf : NameState) (r : ScanResult),
      brutePhase domain o cfg = .ok bf → run_all domain o cfg = .ok r →
      r.subdomains = pySorted ((ctPhase domain o cfg).1 ∪ (webPhase domain o cfg).1 ∪
        (zonePhase domain o cfg).1 ∪ bf.1)) := by
  refine ⟨search_ct_logs_union domain, web_search_union domain, zone_transfer_union domain,
    fun dns wl pre f aft h => dns_bruteforce_ok_union h, ?_⟩
  intro o cfg bf r hb hr
  obtain ⟨bf', hb', rfl⟩ := run_all_ok_inv hr
  rw [hb] at hb'
  have hbf : bf = bf' := Except.ok.inj hb'
  show pySorted bf'.2 = _
  rw [← hbf, brutePhase_snd hb]

/-- C10, witness at the all-disabled scan. -/
theorem C10_witness :
    exResult.subdomains = pySorted ((ctPhase exDomain exOracles exCfgOff).1 ∪
      (webPhase exDomain exOracles exCfgOff).1 ∪ (zonePhase exDomain exOracles exCfgOff).1 ∪
      (∅ : Finset (List Char))) :=
  (C10_nameset_union exDomain).2.2.2.2 exOracles exCfgOff (∅, ∅) exResult (by rfl) (by rfl)

end SubHunter
